import Mathlib

/-!
Verification of the Bunyan formatting layer (`src/formatting_layer.rs`).

The development shallowly embeds the formatter:

* `Value` mirrors the `serde_json::Value` data carried by the `JsonStorage`
  collaborator (numbers are modelled as integers: the storage collaborator of
  this crate records integer, boolean and string field values);
* `Level` and `format_log_level` mirror the five tracing/log severity levels
  and their label mapping;
* `format_event_message`, `serialize_bunyan_core_fields` and `on_event_format`
  mirror the record assembly performed by `on_event`, producing the ordered
  list of `(key, value)` entries handed to the map serializer together with
  the diagnostic notices produced for reserved span fields;
* `emit` mirrors the single `write_all` call that flushes one record plus its
  trailing newline to the sink; sink traffic is modelled as a list of atomic
  write operations so that concurrent interleavings can be reasoned about;
* `renderValue`/`parseValue` give a compact JSON printer matching the
  `serde_json` output format and a parser, with a verified round trip.

The wall-clock timestamp is injected as a string argument (`now_rfc3339`):
the source calls `chrono::Utc::now().to_rfc3339()`, an external collaborator,
and the specification itself asks for a clock substitution seam.
-/

namespace BunyanFormat

/-- JSON values, mirroring `serde_json::Value` as used by the storage
collaborator. Numbers are modelled as integers. -/
inductive Value where
  | null
  | bool (b : Bool)
  | num (n : Int)
  | str (s : String)
  | arr (items : List Value)
  | obj (entries : List (String × Value))

/-- The five severity levels shared by `tracing` and `log` (the source
converts between them with `as_log`, a one-to-one correspondence). -/
inductive Level where
  | error
  | warn
  | info
  | debug
  | trace
deriving DecidableEq

/-- Source constant `RESERVED_FIELDS: [&str; 3] = ["msg", "level", "time"]`. -/
def RESERVED_FIELDS : List String := ["msg", "level", "time"]

/-- Source function `format_log_level` — the Bunyan label
for each severity level. -/
def format_log_level : Level → String
  | .error => "ERROR"
  | .warn => "WARN"
  | .info => "INFO"
  | .debug => "DEBUG"
  | .trace => "TRACE"

/-- Event metadata, as read off `event.metadata()`: target string, severity
level, optional source line and optional source file. -/
structure Metadata where
  target : String
  level : Level
  line : Option Nat
  file : Option String

/-- An event together with the field set recorded into its `JsonStorage`
visitor (`event.record(&mut event_visitor)`); the visitor's `values()` view is
modelled as an association list in iteration order. -/
structure EventData where
  metadata : Metadata
  fields : List (String × Value)

/-- The currently active span, as seen through `ctx.lookup_current()`: its
metadata name and, when a `JsonStorage` extension is attached, that
extension's accumulated field set. -/
structure SpanInfo where
  name : String
  fields : Option (List (String × Value))

/-- Key lookup in a stored field set (the collaborator's `values().get(key)`;
keys are unique within one set, so first match is the match). -/
def valuesGet (fields : List (String × Value)) (key : String) : Option Value :=
  match fields with
  | [] => none
  | (k, v) :: rest => if k = key then some v else valuesGet rest key

/-- Source function `format_event_message` — use the event's `message` field when it is a
string, otherwise fall back to the event's target. -/
def format_event_message (event : EventData) : String :=
  match valuesGet event.fields "message" with
  | some (.str s) => s
  | _ => event.metadata.target

/-- Source function `serialize_bunyan_core_fields` — the three core entries, in order;
the timestamp string is the injected clock reading. -/
def serialize_bunyan_core_fields (message : String) (level : Level)
    (now_rfc3339 : String) : List (String × Value) :=
  [("msg", Value.str message),
   ("level", Value.str (format_log_level level)),
   ("time", Value.str now_rfc3339)]

/-- Serialization of the `Option<u32>` source line (`None` becomes JSON
null, `Some` a number). -/
def valueOfOptNat : Option Nat → Value
  | none => Value.null
  | some n => Value.num n

/-- Serialization of the `Option<&str>` source file. -/
def valueOfOptStr : Option String → Value
  | none => Value.null
  | some s => Value.str s

/-- The diagnostic text of `tracing::debug!` for a skipped reserved span
field. -/
def reservedFieldNotice (key : String) : String :=
  key ++ " is a reserved field in the bunyan log format. Skipping it."

/-- The loop over the span's stored fields: non-reserved fields become record
entries, reserved ones are skipped with a diagnostic notice. -/
def spanFieldEntries : List (String × Value) → List (String × Value) × List String
  | [] => ([], [])
  | (key, value) :: rest =>
    let tail := spanFieldEntries rest
    if RESERVED_FIELDS.contains key then
      (tail.1, reservedFieldNotice key :: tail.2)
    else
      ((key, value) :: tail.1, tail.2)

/-- The outcome of the `format` closure in `on_event`: the ordered entries of
the emitted record and the diagnostic notices sent to the host framework. -/
structure FormatOutcome where
  record : List (String × Value)
  diagnostics : List String

/-- The record assembly in `on_event`: core fields, the `event` entry when a
span is active, the target/line/file metadata, the event's own fields minus
`message` and the reserved names, then the span's fields minus the reserved
names (the latter only when a span with a `JsonStorage` extension is
active). -/
def on_event_format (now_rfc3339 : String) (event : EventData)
    (current_span : Option SpanInfo) : FormatOutcome :=
  let message := format_event_message event
  let core := serialize_bunyan_core_fields message event.metadata.level now_rfc3339
  let eventEntry : List (String × Value) :=
    match current_span with
    | some span => [("event", Value.str span.name)]
    | none => []
  let metaEntries : List (String × Value) :=
    [("target", Value.str event.metadata.target),
     ("line", valueOfOptNat event.metadata.line),
     ("file", valueOfOptStr event.metadata.file)]
  let eventFields := event.fields.filter
    (fun kv => kv.1 != "message" && !(RESERVED_FIELDS.contains kv.1))
  let spanPart : List (String × Value) × List String :=
    match current_span with
    | some span =>
      match span.fields with
      | some visitor => spanFieldEntries visitor
      | none => ([], [])
    | none => ([], [])
  { record := core ++ eventEntry ++ metaEntries ++ eventFields ++ spanPart.1,
    diagnostics := spanPart.2 }

/-- Source function `emit` — append the trailing newline to the in-memory buffer, then
flush the whole buffer through a single `write_all` call. The result is the
sequence of atomic write operations issued against the sink: exactly one. -/
def emit (buffer : List Char) : List (List Char) :=
  [buffer ++ ['\n']]

/-- The tail of `on_event` (`let result = format(); if let Ok(formatted) =
result { let _ = self.emit(formatted); }`): on a successful format the record
is emitted once and the write outcome is discarded; on a serialization error
nothing is written. The returned unit is the only value `on_event` can
produce — there is no error channel back to the caller. The `writeOk`
argument is the sink write outcome; it is deliberately unused, as the source
discards it. -/
def on_event_run (formatResult : Except String (List Char)) (_writeOk : Bool) :
    Unit × List (List Char) :=
  match formatResult with
  | .ok formatted => ((), emit formatted)
  | .error _ => ((), [])

/-! ### Compact JSON rendering, as produced by the `serde_json` serializer -/

/-- Hexadecimal digit characters, lowercase, as used by the serializer's
control-character escapes. -/
def hexDigitChar (n : Nat) : Char :=
  if n < 10 then Char.ofNat (48 + n) else Char.ofNat (87 + n)

/-- One string character, JSON-escaped the way `serde_json` escapes it:
quote and backslash get a backslash escape, the five short control escapes
are used where available, remaining control characters become `\u00XX`, and
everything else is written as itself. -/
def escapeChar (c : Char) : List Char :=
  if c = '"' then ['\\', '"']
  else if c = '\\' then ['\\', '\\']
  else if c = Char.ofNat 8 then ['\\', 'b']
  else if c = Char.ofNat 9 then ['\\', 't']
  else if c = Char.ofNat 10 then ['\\', 'n']
  else if c = Char.ofNat 12 then ['\\', 'f']
  else if c = Char.ofNat 13 then ['\\', 'r']
  else if c.toNat < 32 then
    ['\\', 'u', '0', '0', hexDigitChar (c.toNat / 16), hexDigitChar (c.toNat % 16)]
  else [c]

/-- A rendered JSON string: quote, escaped characters, quote. -/
def renderString (s : String) : List Char :=
  '"' :: (s.data.flatMap escapeChar ++ ['"'])

/-- Decimal digits of a natural number, most significant first. -/
def natDigits (n : Nat) : List Char :=
  if n < 10 then [Char.ofNat (48 + n)]
  else natDigits (n / 10) ++ [Char.ofNat (48 + n % 10)]
termination_by n
decreasing_by exact Nat.div_lt_self (by omega) (by omega)

/-- A rendered JSON integer: optional minus sign, then decimal digits. -/
def renderInt (n : Int) : List Char :=
  (if n < 0 then ['-'] else []) ++ natDigits n.natAbs

mutual

/-- Compact rendering of a JSON value (no inter-token whitespace), matching
the output of the `serde_json` serializer the source writes through. -/
def renderValue : Value → List Char
  | .null => "null".data
  | .bool true => "true".data
  | .bool false => "false".data
  | .num n => renderInt n
  | .str s => renderString s
  | .arr items => '[' :: (renderItems items ++ [']'])
  | .obj entries => '{' :: (renderEntries entries ++ ['}'])

/-- The comma-separated body of a rendered array. -/
def renderItems : List Value → List Char
  | [] => []
  | v :: rest => renderValue v ++ renderItemsTail rest

/-- The later array items, each preceded by its comma. -/
def renderItemsTail : List Value → List Char
  | [] => []
  | v :: rest => ',' :: (renderValue v ++ renderItemsTail rest)

/-- The comma-separated body of a rendered object. -/
def renderEntries : List (String × Value) → List Char
  | [] => []
  | (k, v) :: rest => renderString k ++ ':' :: (renderValue v ++ renderEntriesTail rest)

/-- The later object entries, each preceded by its comma. -/
def renderEntriesTail : List (String × Value) → List Char
  | [] => []
  | (k, v) :: rest => ',' :: (renderString k ++ ':' :: (renderValue v ++ renderEntriesTail rest))

end

/-- The full emission path of `on_event` on the happy path: the record is
assembled, rendered as one JSON object and flushed with a trailing newline
through the single-write `emit` discipline (`on_event_run` with a successful
format result). -/
def on_event_sink_writes (now_rfc3339 : String) (event : EventData)
    (current_span : Option SpanInfo) : List (List Char) :=
  (on_event_run
    (.ok (renderValue (Value.obj (on_event_format now_rfc3339 event current_span).record)))
    true).2

/-! ### A JSON parser, for the round-trip property -/

/-- Decimal digit test. -/
def isDigitChar (c : Char) : Bool :=
  48 ≤ c.toNat && c.toNat ≤ 57

/-- Split off the longest digit prefix. -/
def takeDigitRun : List Char → List Char × List Char
  | [] => ([], [])
  | c :: rest =>
    if isDigitChar c then
      let tail := takeDigitRun rest
      (c :: tail.1, tail.2)
    else ([], c :: rest)

/-- The natural number denoted by a digit run. -/
def digitRunToNat (ds : List Char) : Nat :=
  ds.foldl (fun acc c => acc * 10 + (c.toNat - 48)) 0

/-- Parse a JSON integer: optional minus sign, then a nonempty digit run. -/
def parseIntChars (cs : List Char) : Option (Int × List Char) :=
  match cs with
  | '-' :: rest =>
    let run := takeDigitRun rest
    if run.1.isEmpty then none else some (-(digitRunToNat run.1 : Int), run.2)
  | _ =>
    let run := takeDigitRun cs
    if run.1.isEmpty then none else some ((digitRunToNat run.1 : Int), run.2)

/-- The value of a hexadecimal digit character. -/
def hexDigitVal (c : Char) : Option Nat :=
  if 48 ≤ c.toNat ∧ c.toNat ≤ 57 then some (c.toNat - 48)
  else if 97 ≤ c.toNat ∧ c.toNat ≤ 102 then some (c.toNat - 87)
  else if 65 ≤ c.toNat ∧ c.toNat ≤ 70 then some (c.toNat - 55)
  else none

/-- The inverse of the two-character escapes. -/
def unescapeChar : Char → Option Char
  | '"' => some '"'
  | '\\' => some '\\'
  | '/' => some '/'
  | 'b' => some (Char.ofNat 8)
  | 't' => some (Char.ofNat 9)
  | 'n' => some (Char.ofNat 10)
  | 'f' => some (Char.ofNat 12)
  | 'r' => some (Char.ofNat 13)
  | _ => none

/-- Parse the body of a JSON string after the opening quote, undoing the
escapes, up to and including the closing quote. -/
def parseStringBody : List Char → Option (List Char × List Char)
  | '"' :: rest => some ([], rest)
  | '\\' :: 'u' :: a :: b :: c :: d :: rest =>
    match hexDigitVal a, hexDigitVal b, hexDigitVal c, hexDigitVal d with
    | some va, some vb, some vc, some vd =>
      match parseStringBody rest with
      | some (s, r) => some (Char.ofNat (((va * 16 + vb) * 16 + vc) * 16 + vd) :: s, r)
      | none => none
    | _, _, _, _ => none
  | '\\' :: e :: rest =>
    match unescapeChar e with
    | some u =>
      match parseStringBody rest with
      | some (s, r) => some (u :: s, r)
      | none => none
    | none => none
  | c :: rest =>
    match parseStringBody rest with
    | some (s, r) => some (c :: s, r)
    | none => none
  | [] => none

mutual

/-- Fuel-bounded parser for one JSON value of the compact grammar the
renderer produces (no inter-token whitespace). -/
def parseValue : Nat → List Char → Option (Value × List Char)
  | 0, _ => none
  | fuel + 1, cs =>
    match cs with
    | [] => none
    | c :: t =>
      if c = 'n' then
        match t with
        | c1 :: c2 :: c3 :: rest =>
          if c1 = 'u' then if c2 = 'l' then if c3 = 'l' then
            some (.null, rest) else none else none else none
        | _ => none
      else if c = 't' then
        match t with
        | c1 :: c2 :: c3 :: rest =>
          if c1 = 'r' then if c2 = 'u' then if c3 = 'e' then
            some (.bool true, rest) else none else none else none
        | _ => none
      else if c = 'f' then
        match t with
        | c1 :: c2 :: c3 :: c4 :: rest =>
          if c1 = 'a' then if c2 = 'l' then if c3 = 's' then if c4 = 'e' then
            some (.bool false, rest) else none else none else none else none
        | _ => none
      else if c = '"' then
        match parseStringBody t with
        | some (chars, r) => some (.str (String.mk chars), r)
        | none => none
      else if c = '[' then
        match t with
        | [] => none
        | c2 :: t2 =>
          if c2 = ']' then some (.arr [], t2)
          else
            match parseArrayTail fuel (c2 :: t2) with
            | some (items, r) => some (.arr items, r)
            | none => none
      else if c = '{' then
        match t with
        | [] => none
        | c2 :: t2 =>
          if c2 = '}' then some (.obj [], t2)
          else
            match parseObjectTail fuel (c2 :: t2) with
            | some (entries, r) => some (.obj entries, r)
            | none => none
      else
        match parseIntChars (c :: t) with
        | some (n, r) => some (.num n, r)
        | none => none

/-- Parse the items of a nonempty array body, up to and including the
closing bracket. -/
def parseArrayTail : Nat → List Char → Option (List Value × List Char)
  | 0, _ => none
  | fuel + 1, cs =>
    match parseValue fuel cs with
    | some (v, d :: r) =>
      if d = ']' then some ([v], r)
      else if d = ',' then
        match parseArrayTail fuel r with
        | some (vs, r') => some (v :: vs, r')
        | none => none
      else none
    | _ => none

/-- Parse the entries of a nonempty object body, up to and including the
closing brace. -/
def parseObjectTail : Nat → List Char → Option (List (String × Value) × List Char)
  | 0, _ => none
  | fuel + 1, cs =>
    match cs with
    | [] => none
    | c :: t =>
      if c = '"' then
        match parseStringBody t with
        | some (kchars, d1 :: r1) =>
          if d1 = ':' then
            match parseValue fuel r1 with
            | some (v, d2 :: r2) =>
              if d2 = '}' then some ([(String.mk kchars, v)], r2)
              else if d2 = ',' then
                match parseObjectTail fuel r2 with
                | some (es, r3) => some ((String.mk kchars, v) :: es, r3)
                | none => none
              else none
            | _ => none
          else none
        | _ => none
      else none

end

/-- Parse a complete JSON document: one value consuming the whole input. -/
def parseDocument (cs : List Char) : Option Value :=
  match parseValue (cs.length + 1) cs with
  | some (v, []) => some v
  | _ => none

/-- A remainder that cannot extend a rendered number: empty, or starting
with a non-digit. Every delimiter of the compact grammar qualifies. -/
def numBoundary : List Char → Bool
  | [] => true
  | c :: _ => !(isDigitChar c)

mutual

/-- A fuel bound for parsing a rendered value. -/
def Value.size : Value → Nat
  | .null => 1
  | .bool _ => 1
  | .num _ => 1
  | .str _ => 1
  | .arr items => 1 + sizeItems items
  | .obj entries => 1 + sizeEntries entries

/-- Fuel bound for an array body. -/
def sizeItems : List Value → Nat
  | [] => 0
  | v :: rest => 1 + Value.size v + sizeItems rest

/-- Fuel bound for an object body. -/
def sizeEntries : List (String × Value) → Nat
  | [] => 0
  | (_, v) :: rest => 1 + Value.size v + sizeEntries rest

end

/-! ### Concurrent sink traffic -/

/-- An interleaving of the per-thread sequences of atomic sink operations:
at each step some thread's next pending operation reaches the sink. This is
the scheduling model of §5 of the specification — threads race for the sink
but each write operation is indivisible. -/
inductive Interleaving : List (List α) → List α → Prop where
  | done (threads : List (List α)) (h : ∀ t ∈ threads, t = []) :
      Interleaving threads []
  | step (threads : List (List α)) (i : Nat) (x : α) (pending : List α)
      (out : List α)
      (hget : threads[i]? = some (x :: pending))
      (htail : Interleaving (threads.set i pending) out) :
      Interleaving threads (x :: out)

/-! ### Concrete inputs used by the witness theorems -/

/-- The specification's end-to-end example event: target `app::handler`,
level INFO, fields `message` and `status`. -/
def sampleEvent : EventData :=
  { metadata := { target := "app::handler", level := .info, line := some 12,
                  file := some "main.rs" },
    fields := [("message", Value.str "request handled"), ("status", Value.num 200)] }

/-- A span named `request` whose storage holds a normal field, a reserved
field and a field named `message`. -/
def sampleSpan : SpanInfo :=
  { name := "request",
    fields := some [("request_id", Value.str "abc-123"),
                    ("time", Value.str "boom"),
                    ("message", Value.str "span message")] }

/-- An event whose own field set supplies the reserved name `level`. -/
def eventWithReservedField : EventData :=
  { metadata := { target := "app", level := .warn, line := none, file := none },
    fields := [("level", Value.str "5")] }

/-! ## Helper lemmas -/

/-- The record's `msg` entry always resolves to the formatted event message:
it is the first entry of the record, so no caller-supplied field can shadow
it. -/
theorem record_msg_lookup (now : String) (event : EventData)
    (current_span : Option SpanInfo) :
    valuesGet (on_event_format now event current_span).record "msg"
      = some (Value.str (format_event_message event)) := by
  simp [on_event_format, serialize_bunyan_core_fields, valuesGet]

/-- Every record entry contributed by the span loop comes from the span's
stored fields and carries a non-reserved key. -/
theorem spanFieldEntries_sub :
    ∀ (l : List (String × Value)) (kv : String × Value),
      kv ∈ (spanFieldEntries l).1 → kv ∈ l ∧ RESERVED_FIELDS.contains kv.1 = false := by
  intro l
  induction l with
  | nil => intro kv h; simp [spanFieldEntries] at h
  | cons hd tl ih =>
    intro kv h
    obtain ⟨key, value⟩ := hd
    by_cases hres : RESERVED_FIELDS.contains key
    · rw [spanFieldEntries, if_pos hres] at h
      obtain ⟨hmem, hk⟩ := ih kv h
      exact ⟨List.mem_cons_of_mem _ hmem, hk⟩
    · rw [spanFieldEntries, if_neg hres] at h
      rcases List.mem_cons.mp h with rfl | h'
      · exact ⟨List.mem_cons_self _ _, by simpa using hres⟩
      · obtain ⟨hmem, hk⟩ := ih kv h'
        exact ⟨List.mem_cons_of_mem _ hmem, hk⟩

/-- The span loop keeps every non-reserved stored field. -/
theorem spanFieldEntries_keeps :
    ∀ (l : List (String × Value)) (kv : String × Value),
      kv ∈ l → RESERVED_FIELDS.contains kv.1 = false → kv ∈ (spanFieldEntries l).1 := by
  intro l
  induction l with
  | nil => intro kv h _; simp at h
  | cons hd tl ih =>
    intro kv h hk
    obtain ⟨key, value⟩ := hd
    rcases List.mem_cons.mp h with rfl | h'
    · rw [spanFieldEntries, if_neg (by simp_all)]
      exact List.mem_cons_self _ _
    · by_cases hres : RESERVED_FIELDS.contains key
      · rw [spanFieldEntries, if_pos hres]
        exact ih kv h' hk
      · rw [spanFieldEntries, if_neg hres]
        exact List.mem_cons_of_mem _ (ih kv h' hk)

/-- The span loop produces one diagnostic notice per reserved stored field,
in field order. -/
theorem spanFieldEntries_diags :
    ∀ l : List (String × Value),
      (spanFieldEntries l).2
        = (l.filter (fun kv => RESERVED_FIELDS.contains kv.1)).map
            (fun kv => reservedFieldNotice kv.1) := by
  intro l
  induction l with
  | nil => simp [spanFieldEntries]
  | cons hd tl ih =>
    obtain ⟨key, value⟩ := hd
    by_cases hres : RESERVED_FIELDS.contains key
    · rw [spanFieldEntries, if_pos hres, List.filter_cons, if_pos hres]
      simp [ih]
    · rw [spanFieldEntries, if_neg hres, List.filter_cons,
        if_neg (by simpa using hres)]
      exact ih

/-- In any interleaving, every operation that reaches the sink is one of
some thread's operations — scheduling permutes whole operations, never
splits one. -/
theorem interleaving_mem {α : Type} :
    ∀ {sources : List (List α)} {out : List α},
      Interleaving sources out → ∀ x ∈ out, ∃ t ∈ sources, x ∈ t := by
  intro sources out h
  induction h with
  | done _ _ => simp
  | step threads i x pending out hget _ ih =>
    intro y hy
    have hthread : (x :: pending) ∈ threads := by
      obtain ⟨hlt, hx⟩ := List.getElem?_eq_some_iff.mp hget
      exact hx ▸ List.getElem_mem hlt
    rcases List.mem_cons.mp hy with hxy | hy'
    · exact ⟨x :: pending, hthread, List.mem_cons.mpr (Or.inl hxy)⟩
    · obtain ⟨t, ht, hyt⟩ := ih y hy'
      rcases List.mem_or_eq_of_mem_set ht with ht' | heq
      · exact ⟨t, ht', hyt⟩
      · exact ⟨x :: pending, hthread, List.mem_cons_of_mem _ (heq ▸ hyt)⟩

/-! ## Claim theorems (part 1) -/

/-- Claim C1: the record's `msg` field equals the event's `message` field
value when that value is a string, and falls back to the event's target
identifier when the `message` field is absent or not a string. -/
theorem c1_message_resolution (now : String) (event : EventData)
    (current_span : Option SpanInfo) :
    (∀ s, valuesGet event.fields "message" = some (Value.str s) →
        valuesGet (on_event_format now event current_span).record "msg"
          = some (Value.str s))
    ∧ ((∀ s, valuesGet event.fields "message" ≠ some (Value.str s)) →
        valuesGet (on_event_format now event current_span).record "msg"
          = some (Value.str event.metadata.target)) := by
  constructor
  · intro s hs
    rw [record_msg_lookup, format_event_message, hs]
  · intro hno
    rw [record_msg_lookup, format_event_message]
    cases hv : valuesGet event.fields "message" with
    | none => rfl
    | some v =>
      cases v with
      | str s => exact absurd hv (hno s)
      | null => rfl
      | bool b => rfl
      | num n => rfl
      | arr items => rfl
      | obj entries => rfl

/-- Witness for C1 at the specification's example event: the `message`
field is the string `"request handled"`, and the record's `msg` entry equals
it. -/
theorem c1_message_resolution_witness :
    valuesGet sampleEvent.fields "message" = some (Value.str "request handled")
    ∧ valuesGet (on_event_format "2026-10-12T00:00:00+00:00" sampleEvent
        (some sampleSpan)).record "msg" = some (Value.str "request handled") :=
  ⟨rfl, (c1_message_resolution "2026-10-12T00:00:00+00:00" sampleEvent
    (some sampleSpan)).1 "request handled" rfl⟩

/-- Claim C4: the severity mapping sends the five levels to the five fixed
uppercase labels, exhaustively and one-to-one; being a pure total function,
repeated applications at the same level agree by construction. -/
theorem c4_severity_mapping :
    [Level.error, Level.warn, Level.info, Level.debug, Level.trace].map format_log_level
      = ["ERROR", "WARN", "INFO", "DEBUG", "TRACE"]
    ∧ (∀ l : Level, format_log_level l ∈ ["ERROR", "WARN", "INFO", "DEBUG", "TRACE"])
    ∧ (["ERROR", "WARN", "INFO", "DEBUG", "TRACE"] : List String).Nodup := by
  refine ⟨rfl, ?_, by decide⟩
  intro l
  cases l <;> simp [format_log_level]

/-- Claim C7: on a failed serialization the record is dropped with no write
attempt; on success exactly one write is attempted; the sink write outcome
is discarded, so a failed write changes nothing and is never retried; and
the only value `on_event` returns is `()`, never an error. -/
theorem c7_error_swallowing :
    (∀ (err : String) (writeOk : Bool), on_event_run (.error err) writeOk = ((), []))
    ∧ (∀ (buffer : List Char) (writeOk : Bool),
        on_event_run (.ok buffer) writeOk = ((), [buffer ++ ['\n']]))
    ∧ (∀ (result : Except String (List Char)) (w w' : Bool),
        on_event_run result w = on_event_run result w')
    ∧ (∀ (result : Except String (List Char)) (w : Bool),
        (on_event_run result w).2.length ≤ 1) := by
  refine ⟨fun _ _ => rfl, fun _ _ => rfl, ?_, ?_⟩
  · intro result w w'
    cases result <;> rfl
  · intro result w
    cases result <;> simp [on_event_run, emit]

/-- Claim C6: without an active span the record is exactly the core fields,
the target/line/file metadata and the event's own non-reserved fields — no
`event` entry is inserted; with an active span an `event` entry holding the
span's name is inserted after the core fields and the span's non-reserved
stored fields are appended. -/
theorem c6_span_conditional (now : String) (event : EventData) (sp : SpanInfo) :
    ((on_event_format now event none).record
      = serialize_bunyan_core_fields (format_event_message event)
          event.metadata.level now
        ++ [("target", Value.str event.metadata.target),
            ("line", valueOfOptNat event.metadata.line),
            ("file", valueOfOptStr event.metadata.file)]
        ++ event.fields.filter
            (fun kv => kv.1 != "message" && !(RESERVED_FIELDS.contains kv.1)))
    ∧ ((on_event_format now event (some sp)).record
      = (on_event_format now event none).record.take 3
        ++ [("event", Value.str sp.name)]
        ++ (on_event_format now event none).record.drop 3
        ++ (match sp.fields with
            | some visitor => (spanFieldEntries visitor).1
            | none => []))
    ∧ ("event", Value.str sp.name) ∈ (on_event_format now event (some sp)).record := by
  refine ⟨by simp [on_event_format], ?_, ?_⟩
  · obtain ⟨nm, fs⟩ := sp
    cases fs <;> simp [on_event_format, serialize_bunyan_core_fields]
  · simp [on_event_format]

/-- Claim C10: an active span with no `JsonStorage` extension still yields a
complete record — one atomic sink write — whose `event` entry holds the
span's name; the span-field section is empty and no diagnostic is
produced. -/
theorem c10_span_without_storage (now : String) (event : EventData) (name : String) :
    (on_event_sink_writes now event (some ⟨name, none⟩)).length = 1
    ∧ ("event", Value.str name) ∈ (on_event_format now event (some ⟨name, none⟩)).record
    ∧ (on_event_format now event (some ⟨name, none⟩)).record
      = (on_event_format now event none).record.take 3
        ++ [("event", Value.str name)]
        ++ (on_event_format now event none).record.drop 3
    ∧ (on_event_format now event (some ⟨name, none⟩)).diagnostics = [] := by
  refine ⟨rfl, ?_, ?_, rfl⟩
  · simp [on_event_format]
  · simp [on_event_format, serialize_bunyan_core_fields]

/-- Any reserved-named entry of the record is one of the core-assigned
entries: caller-supplied reserved fields never survive into the record. -/
theorem record_reserved_core (now : String) (event : EventData)
    (current_span : Option SpanInfo) :
    ∀ kv ∈ (on_event_format now event current_span).record,
      kv.1 ∈ RESERVED_FIELDS →
      kv ∈ serialize_bunyan_core_fields (format_event_message event)
        event.metadata.level now := by
  have handle : ∀ (spanPart : List (String × Value)),
      (∀ kv ∈ spanPart, RESERVED_FIELDS.contains kv.1 = false) →
      ∀ kv ∈ (serialize_bunyan_core_fields (format_event_message event)
          event.metadata.level now)
        ++ (match current_span with
            | some sp => [("event", Value.str sp.name)]
            | none => [])
        ++ [("target", Value.str event.metadata.target),
            ("line", valueOfOptNat event.metadata.line),
            ("file", valueOfOptStr event.metadata.file)]
        ++ event.fields.filter
            (fun kv => kv.1 != "message" && !(RESERVED_FIELDS.contains kv.1))
        ++ spanPart,
      kv.1 ∈ RESERVED_FIELDS →
      kv ∈ serialize_bunyan_core_fields (format_event_message event)
        event.metadata.level now := by
    intro spanPart hspan kv hkv hres
    rcases List.mem_append.mp hkv with hkv' | hsp
    · rcases List.mem_append.mp hkv' with hkv'' | hf
      · rcases List.mem_append.mp hkv'' with hkv''' | hmeta
        · rcases List.mem_append.mp hkv''' with hcore | hev
          · exact hcore
          · exfalso
            cases current_span with
            | none => simp at hev
            | some sp =>
              rw [List.mem_singleton] at hev
              rw [hev] at hres
              simp [RESERVED_FIELDS] at hres
        · exfalso
          rcases List.mem_cons.mp hmeta with h1 | hmeta'
          · rw [h1] at hres; simp [RESERVED_FIELDS] at hres
          · rcases List.mem_cons.mp hmeta' with h2 | hmeta''
            · rw [h2] at hres; simp [RESERVED_FIELDS] at hres
            · rcases List.mem_cons.mp hmeta'' with h3 | hnil
              · rw [h3] at hres; simp [RESERVED_FIELDS] at hres
              · simp at hnil
      · exfalso
        have hpred := (List.mem_filter.mp hf).2
        simp only [Bool.and_eq_true, Bool.not_eq_true', bne_iff_ne] at hpred
        have : kv.1 ∉ RESERVED_FIELDS := by simpa using hpred.2
        exact this hres
    · exfalso
      have : kv.1 ∉ RESERVED_FIELDS := by simpa using hspan kv hsp
      exact this hres
  intro kv hkv hres
  cases hc : current_span with
  | none =>
    refine handle [] (by simp) kv ?_ hres
    rw [hc] at hkv
    simpa [on_event_format, hc] using hkv
  | some sp =>
    cases hs : sp.fields with
    | none =>
      refine handle [] (by simp) kv ?_ hres
      rw [hc] at hkv
      simpa [on_event_format, hc, hs] using hkv
    | some visitor =>
      refine handle (spanFieldEntries visitor).1
        (fun kv' hkv' => (spanFieldEntries_sub visitor kv' hkv').2) kv ?_ hres
      rw [hc] at hkv
      simpa [on_event_format, hc, hs] using hkv

/-! ## Claim theorems (part 2) -/

/-- Counterexample to claim C2 as stated: this event supplies the reserved
field `level`; the field is indeed dropped from the record, but no
diagnostic notice accompanies the drop — the event-side filter is silent. -/
theorem c2_counterexample :
    eventWithReservedField.fields = [("level", Value.str "5")]
    ∧ ("level", Value.str "5")
        ∉ (on_event_format "2026-01-01T00:00:00+00:00" eventWithReservedField none).record
    ∧ (on_event_format "2026-01-01T00:00:00+00:00" eventWithReservedField none).diagnostics
        = [] := by
  refine ⟨rfl, ?_, rfl⟩
  intro hmem
  have := record_reserved_core "2026-01-01T00:00:00+00:00" eventWithReservedField none
    ("level", Value.str "5") hmem (by simp [RESERVED_FIELDS])
  simp [serialize_bunyan_core_fields, format_event_message, eventWithReservedField,
    valuesGet, format_log_level] at this

/-- Claim C2 (amended): caller-supplied reserved fields never appear in the
record under their name — only the core-assigned entries do; reserved fields
arriving from the span's stored set are each dropped with a diagnostic
notice through the host framework's diagnostic channel, while reserved
fields in the event's own set are dropped silently. -/
theorem c2_reserved_field_precedence (now : String) (event : EventData)
    (current_span : Option SpanInfo) :
    (∀ kv ∈ (on_event_format now event current_span).record,
      kv.1 ∈ RESERVED_FIELDS →
      kv ∈ serialize_bunyan_core_fields (format_event_message event)
        event.metadata.level now)
    ∧ (on_event_format now event current_span).diagnostics
      = (match current_span with
         | some sp =>
           match sp.fields with
           | some visitor =>
             (visitor.filter (fun kv => RESERVED_FIELDS.contains kv.1)).map
               (fun kv => reservedFieldNotice kv.1)
           | none => []
         | none => []) := by
  refine ⟨record_reserved_core now event current_span, ?_⟩
  cases current_span with
  | none => rfl
  | some sp =>
    cases hs : sp.fields with
    | none => simp [on_event_format, hs]
    | some visitor => simp [on_event_format, hs, spanFieldEntries_diags]

/-- Witness for the amended C2: at the example event inside the example
span, the core `msg` entry is the only `msg`-named entry, and the span's
reserved `time` field produces exactly one diagnostic notice. -/
theorem c2_reserved_field_precedence_witness :
    ("msg", Value.str "request handled")
      ∈ serialize_bunyan_core_fields (format_event_message sampleEvent)
          sampleEvent.metadata.level "2026-10-12T00:00:00+00:00"
    ∧ (on_event_format "2026-10-12T00:00:00+00:00" sampleEvent
        (some sampleSpan)).diagnostics = [reservedFieldNotice "time"] := by
  have h := c2_reserved_field_precedence "2026-10-12T00:00:00+00:00" sampleEvent
    (some sampleSpan)
  refine ⟨h.1 ("msg", Value.str "request handled") ?_ (by simp [RESERVED_FIELDS]), ?_⟩
  · simp [on_event_format, serialize_bunyan_core_fields, format_event_message,
      sampleEvent, valuesGet]
  · rw [h.2]; rfl

/-- Claim C9: a span-stored field named `message` is not filtered — it is
serialized into the record under the key `message` — and the record's `msg`
resolution never consults the span (it is the formatted event message for
every span context). -/
theorem c9_span_message_preserved (now : String) (event : EventData)
    (sp : SpanInfo) (visitor : List (String × Value)) (v : Value)
    (hf : sp.fields = some visitor) (hm : ("message", v) ∈ visitor) :
    ("message", v) ∈ (on_event_format now event (some sp)).record
    ∧ ∀ cur : Option SpanInfo,
        valuesGet (on_event_format now event cur).record "msg"
          = some (Value.str (format_event_message event)) := by
  refine ⟨?_, fun cur => record_msg_lookup now event cur⟩
  have hkeep : ("message", v) ∈ (spanFieldEntries visitor).1 :=
    spanFieldEntries_keeps visitor ("message", v) hm (by rfl)
  simp only [on_event_format, hf]
  exact List.mem_append.mpr (Or.inr hkeep)

/-- Witness for C9 at the example span, whose storage holds
`message = "span message"`. -/
theorem c9_span_message_preserved_witness :
    ("message", Value.str "span message")
      ∈ (on_event_format "2026-10-12T00:00:00+00:00" sampleEvent
          (some sampleSpan)).record
    ∧ ∀ cur : Option SpanInfo,
        valuesGet (on_event_format "2026-10-12T00:00:00+00:00" sampleEvent cur).record
          "msg" = some (Value.str (format_event_message sampleEvent)) :=
  c9_span_message_preserved "2026-10-12T00:00:00+00:00" sampleEvent sampleSpan
    [("request_id", Value.str "abc-123"), ("time", Value.str "boom"),
     ("message", Value.str "span message")]
    (Value.str "span message") rfl (by simp)

/-- The entries the span loop serializes are exactly the span's stored
fields with the reserved names filtered out, in stored order. -/
theorem spanFieldEntries_filter :
    ∀ l : List (String × Value),
      (spanFieldEntries l).1
        = l.filter (fun kv => !(RESERVED_FIELDS.contains kv.1)) := by
  intro l
  induction l with
  | nil => simp [spanFieldEntries]
  | cons hd tl ih =>
    obtain ⟨key, value⟩ := hd
    by_cases hres : RESERVED_FIELDS.contains key
    · rw [spanFieldEntries, if_pos hres, List.filter_cons,
        if_neg (by simpa using hres)]
      exact ih
    · rw [spanFieldEntries, if_neg hres, List.filter_cons,
        if_pos (by simpa using hres)]
      simp [ih]

/-- Claim C5: the record is exactly, in insertion order, `msg` (the resolved
message string), `level` (one of the five labels), `time` (the clock's
RFC 3339 rendering, injected here), then `event` exactly when a span is
active, then `target`, `line` (number or null), `file` (string or null),
then exactly the event's own fields minus `message` and the reserved names,
then exactly the span's non-reserved stored fields — both field blocks kept
in stored order, the event block before the span block. -/
theorem c5_record_shape (now : String) (event : EventData)
    (current_span : Option SpanInfo) :
    (on_event_format now event current_span).record
      = [("msg", Value.str (format_event_message event)),
         ("level", Value.str (format_log_level event.metadata.level)),
         ("time", Value.str now)]
        ++ (match current_span with
            | some sp => [("event", Value.str sp.name)]
            | none => [])
        ++ [("target", Value.str event.metadata.target),
            ("line", valueOfOptNat event.metadata.line),
            ("file", valueOfOptStr event.metadata.file)]
        ++ event.fields.filter
            (fun kv => kv.1 != "message" && !(RESERVED_FIELDS.contains kv.1))
        ++ (match current_span with
            | some sp =>
              match sp.fields with
              | some visitor =>
                visitor.filter (fun kv => !(RESERVED_FIELDS.contains kv.1))
              | none => []
            | none => [])
    ∧ format_log_level event.metadata.level
        ∈ ["ERROR", "WARN", "INFO", "DEBUG", "TRACE"]
    ∧ (valueOfOptNat event.metadata.line = Value.null
        ∨ ∃ n, valueOfOptNat event.metadata.line = Value.num n)
    ∧ (valueOfOptStr event.metadata.file = Value.null
        ∨ ∃ s, valueOfOptStr event.metadata.file = Value.str s) := by
  refine ⟨?_, ?_, ?_, ?_⟩
  · cases current_span with
    | none => simp [on_event_format, serialize_bunyan_core_fields]
    | some sp =>
      cases hs : sp.fields <;>
        simp [on_event_format, serialize_bunyan_core_fields, hs,
          spanFieldEntries_filter]
  · cases event.metadata.level <;> simp [format_log_level]
  · cases event.metadata.line with
    | none => exact Or.inl rfl
    | some n => exact Or.inr ⟨n, rfl⟩
  · cases event.metadata.file with
    | none => exact Or.inl rfl
    | some s => exact Or.inr ⟨s, rfl⟩

/-- Claim C3: `emit` issues the whole serialized record plus its trailing
newline as a single atomic write operation, so in every interleaving of any
number of concurrently emitting threads, each operation reaching the sink is
one complete record followed by the newline — never a byte-level splice of
two records. -/
theorem c3_atomic_emission (threads : List (List (List Char)))
    (out : List (List Char))
    (h : Interleaving (threads.map (fun records => records.flatMap emit)) out) :
    (∀ buffer : List Char, emit buffer = [buffer ++ ['\n']])
    ∧ ∀ w ∈ out, ∃ records ∈ threads, ∃ buffer ∈ records, w = buffer ++ ['\n'] := by
  refine ⟨fun _ => rfl, ?_⟩
  intro w hw
  obtain ⟨t, ht, hwt⟩ := interleaving_mem h w hw
  obtain ⟨records, hrec, hmap⟩ := List.mem_map.mp ht
  rw [← hmap] at hwt
  obtain ⟨buffer, hbuf, hwb⟩ := List.mem_flatMap.mp hwt
  exact ⟨records, hrec, buffer, hbuf, by simpa [emit] using hwb⟩

/-- Witness for C3: two threads, one record each, interleaved with the
second thread's write first; the first operation reaching the sink is the
second thread's complete record. -/
theorem c3_atomic_emission_witness :
    ∃ records ∈ [[['a']], [['b']]], ∃ buffer ∈ records,
      ['b', '\n'] = buffer ++ ['\n'] := by
  have h0 : Interleaving [([] : List (List Char)), []] [] :=
    .done _ (by simp)
  have h1 : Interleaving [[['a', '\n']], ([] : List (List Char))] [['a', '\n']] :=
    .step _ 0 ['a', '\n'] [] [] rfl h0
  have h2 : Interleaving [[['a', '\n']], [['b', '\n']]]
      [['b', '\n'], ['a', '\n']] :=
    .step _ 1 ['b', '\n'] [] _ rfl h1
  exact (c3_atomic_emission [[['a']], [['b']]] [['b', '\n'], ['a', '\n']] h2).2
    ['b', '\n'] (by simp)

/-! ## Round trip of the JSON codec: strings -/

/-- Reading a hexadecimal digit back yields its value. -/
theorem hexDigit_round : ∀ d < 16, hexDigitVal (hexDigitChar d) = some d := by
  decide

/-- Parsing one escaped character prepends that character to whatever the
remaining body parses to. -/
theorem parseStringBody_escape (c : Char) (tail : List Char) (s r : List Char)
    (h : parseStringBody tail = some (s, r)) :
    parseStringBody (escapeChar c ++ tail) = some (c :: s, r) := by
  rw [escapeChar]
  by_cases h1 : c = '"'
  · subst h1; simp [parseStringBody, unescapeChar, h]
  · rw [if_neg h1]
    by_cases h2 : c = '\\'
    · subst h2; simp [parseStringBody, unescapeChar, h]
    · rw [if_neg h2]
      by_cases h3 : c = Char.ofNat 8
      · subst h3; simp [parseStringBody, unescapeChar, h]
      · rw [if_neg h3]
        by_cases h4 : c = Char.ofNat 9
        · subst h4; simp [parseStringBody, unescapeChar, h]
        · rw [if_neg h4]
          by_cases h5 : c = Char.ofNat 10
          · subst h5; simp [parseStringBody, unescapeChar, h]
          · rw [if_neg h5]
            by_cases h6 : c = Char.ofNat 12
            · subst h6; simp [parseStringBody, unescapeChar, h]
            · rw [if_neg h6]
              by_cases h7 : c = Char.ofNat 13
              · subst h7; simp [parseStringBody, unescapeChar, h]
              · rw [if_neg h7]
                by_cases h8 : c.toNat < 32
                · rw [if_pos h8]
                  have h0 : hexDigitVal '0' = some 0 := by decide
                  have ha := hexDigit_round (c.toNat / 16) (by omega)
                  have hb := hexDigit_round (c.toNat % 16) (by omega)
                  have hval : ((0 * 16 + 0) * 16 + c.toNat / 16) * 16 + c.toNat % 16
                      = c.toNat := by omega
                  simp only [List.cons_append, List.nil_append]
                  rw [parseStringBody.eq_def]
                  simp [h0, ha, hb, h, hval, Char.ofNat_toNat]
                  have hval2 : c.toNat / 16 * 16 + c.toNat % 16 = c.toNat := by
                    omega
                  rw [hval2, Char.ofNat_toNat]
                · rw [if_neg h8]
                  simp only [List.cons_append, List.nil_append]
                  rw [parseStringBody.eq_def]
                  simp [h1, h2, h]

/-- Parsing a fully escaped character run recovers it, stopping at the
closing quote. -/
theorem parseStringBody_render (cs : List Char) :
    ∀ rest, parseStringBody (cs.flatMap escapeChar ++ '"' :: rest)
      = some (cs, rest) := by
  induction cs with
  | nil => intro rest; simp [parseStringBody]
  | cons c t ih =>
    intro rest
    rw [List.flatMap_cons, List.append_assoc]
    exact parseStringBody_escape c _ t rest (ih rest)

/-! ## Round trip of the JSON codec: integers -/

/-- The decimal digit characters carry their values and satisfy the digit
test. -/
theorem digit_char_spec :
    ∀ d < 10, (Char.ofNat (48 + d)).toNat = 48 + d
      ∧ isDigitChar (Char.ofNat (48 + d)) = true := by
  decide

/-- One unfolding of `natDigits`, last digit split off. -/
theorem natDigits_unfold (n : Nat) :
    natDigits n
      = (if n < 10 then [] else natDigits (n / 10))
        ++ [Char.ofNat (48 + n % 10)] := by
  rw [natDigits]
  by_cases h : n < 10
  · simp [h, Nat.mod_eq_of_lt h]
  · simp [h]

/-- Rendered digits pass the digit test. -/
theorem natDigits_digits (n : Nat) : ∀ c ∈ natDigits n, isDigitChar c = true := by
  induction n using Nat.strongRecOn with
  | _ n ih =>
    rw [natDigits_unfold]
    intro c hc
    rcases List.mem_append.mp hc with h | h
    · by_cases h10 : n < 10
      · simp [h10] at h
      · exact ih (n / 10) (Nat.div_lt_self (by omega) (by omega)) c
          (by simpa [h10] using h)
    · rw [List.mem_singleton] at h
      subst h
      exact (digit_char_spec (n % 10) (Nat.mod_lt _ (by omega))).2

/-- A digit run is never empty. -/
theorem natDigits_ne_nil (n : Nat) : natDigits n ≠ [] := by
  rw [natDigits_unfold]; simp

/-- A digit run starts with a digit character. -/
theorem natDigits_head (n : Nat) :
    ∃ c t, natDigits n = c :: t ∧ isDigitChar c = true := by
  cases h : natDigits n with
  | nil => exact absurd h (natDigits_ne_nil n)
  | cons c t =>
    refine ⟨c, t, rfl, natDigits_digits n c ?_⟩
    rw [h]
    exact List.mem_cons_self c t

/-- Taking a digit run consumes nothing at a number boundary. -/
theorem takeDigitRun_stop {rest : List Char} (h : numBoundary rest = true) :
    takeDigitRun rest = ([], rest) := by
  cases rest with
  | nil => rfl
  | cons c t =>
    simp only [numBoundary, Bool.not_eq_true'] at h
    simp [takeDigitRun, h]

/-- Taking a digit run consumes exactly the run, stopping at a boundary. -/
theorem takeDigitRun_run :
    ∀ ds : List Char, (∀ c ∈ ds, isDigitChar c = true) →
      ∀ rest, takeDigitRun rest = ([], rest) →
      takeDigitRun (ds ++ rest) = (ds, rest) := by
  intro ds
  induction ds with
  | nil => intro _ rest h; simpa using h
  | cons c t ih =>
    intro hds rest hrest
    have hc : isDigitChar c = true := hds c (List.mem_cons_self c t)
    have ht := ih (fun x hx => hds x (List.mem_cons_of_mem _ hx)) rest hrest
    simp [takeDigitRun, hc, ht]

/-- Reading the rendered digits back yields the number. -/
theorem digitRunToNat_natDigits (n : Nat) : digitRunToNat (natDigits n) = n := by
  induction n using Nat.strongRecOn with
  | _ n ih =>
    rw [natDigits_unfold]
    unfold digitRunToNat
    rw [List.foldl_append]
    by_cases h10 : n < 10
    · simp only [if_pos h10, List.foldl_nil, List.foldl_cons]
      rw [(digit_char_spec (n % 10) (Nat.mod_lt _ (by omega))).1]
      omega
    · simp only [if_neg h10, List.foldl_cons, List.foldl_nil]
      have hrec := ih (n / 10) (Nat.div_lt_self (by omega) (by omega))
      unfold digitRunToNat at hrec
      rw [hrec, (digit_char_spec (n % 10) (Nat.mod_lt _ (by omega))).1]
      omega

/-- A digit character is none of the grammar's marker characters. -/
theorem digit_ne {c : Char} (h : isDigitChar c = true) :
    c ≠ '-' ∧ c ≠ 'n' ∧ c ≠ 't' ∧ c ≠ 'f' ∧ c ≠ '"' ∧ c ≠ '['
      ∧ c ≠ '{' ∧ c ≠ ']' ∧ c ≠ '}' := by
  refine ⟨?_, ?_, ?_, ?_, ?_, ?_, ?_, ?_, ?_⟩ <;>
    (intro he; subst he; exact absurd h (by decide))

/-- The integer codec round-trip, at any boundary remainder. -/
theorem parseIntChars_render (n : Int) (rest : List Char)
    (hb : numBoundary rest = true) :
    parseIntChars (renderInt n ++ rest) = some (n, rest) := by
  have hrun : takeDigitRun (natDigits n.natAbs ++ rest) = (natDigits n.natAbs, rest) :=
    takeDigitRun_run _ (natDigits_digits _) rest (takeDigitRun_stop hb)
  by_cases hneg : n < 0
  · have harg : renderInt n ++ rest = '-' :: (natDigits n.natAbs ++ rest) := by
      simp [renderInt, hneg]
    rw [harg]
    simp only [parseIntChars, hrun]
    rw [if_neg (by simp [natDigits_ne_nil])]
    have hval : -(digitRunToNat (natDigits n.natAbs) : Int) = n := by
      rw [digitRunToNat_natDigits]; omega
    rw [hval]
  · obtain ⟨c, t, hnd, hc⟩ := natDigits_head n.natAbs
    have harg : renderInt n ++ rest = c :: (t ++ rest) := by
      simp [renderInt, hneg, hnd]
    have hback : c :: (t ++ rest) = natDigits n.natAbs ++ rest := by
      rw [hnd]; simp
    have hrun' : takeDigitRun (c :: (t ++ rest)) = (natDigits n.natAbs, rest) := by
      rw [hback]; exact hrun
    have hval : (digitRunToNat (natDigits n.natAbs) : Int) = n := by
      rw [digitRunToNat_natDigits]; omega
    rw [harg, parseIntChars.eq_def]
    have hc' : c ≠ '-' := (digit_ne hc).1
    simp [hc', hrun', natDigits_ne_nil, hval]

/-! ## Round trip of the JSON codec: values -/

/-- Every value has positive parsing fuel requirement. -/
theorem size_pos (v : Value) : 1 ≤ Value.size v := by
  cases v <;> simp only [Value.size] <;> omega

/-- Rebuilding a string from its character data is the identity. -/
theorem stringMk_data (s : String) : String.mk s.data = s := rfl

mutual

/-- The fuel requirement of a value is within its rendered length. -/
theorem size_le_render : ∀ v : Value, Value.size v ≤ (renderValue v).length
  | .null => by simp [Value.size, renderValue]
  | .bool true => by simp [Value.size, renderValue]
  | .bool false => by simp [Value.size, renderValue]
  | .num n => by
    have hne := natDigits_ne_nil n.natAbs
    have hpos : 0 < (natDigits n.natAbs).length := List.length_pos.mpr hne
    simp only [Value.size, renderValue, renderInt, List.length_append]
    by_cases hneg : n < 0 <;> simp [hneg] <;> try omega
  | .str s => by simp [Value.size, renderValue, renderString]
  | .arr [] => by simp [Value.size, renderValue, sizeItems, renderItems]
  | .arr (v :: items) => by
    have h1 := size_le_render v
    have h2 := sizeItems_le_tail items
    simp only [Value.size, renderValue, sizeItems, renderItems, List.length_cons,
      List.length_append]
    omega
  | .obj [] => by simp [Value.size, renderValue, sizeEntries, renderEntries]
  | .obj ((k, v) :: entries) => by
    have h1 := size_le_render v
    have h2 := sizeEntries_le_tail entries
    simp only [Value.size, renderValue, sizeEntries, renderEntries,
      List.length_cons, List.length_append]
    omega

/-- Fuel requirement of the later array items. -/
theorem sizeItems_le_tail :
    ∀ items : List Value, sizeItems items ≤ (renderItemsTail items).length
  | [] => by simp [sizeItems, renderItemsTail]
  | v :: items => by
    have h1 := size_le_render v
    have h2 := sizeItems_le_tail items
    simp only [sizeItems, renderItemsTail, List.length_cons, List.length_append]
    omega

/-- Fuel requirement of the later object entries. -/
theorem sizeEntries_le_tail :
    ∀ entries : List (String × Value),
      sizeEntries entries ≤ (renderEntriesTail entries).length
  | [] => by simp [sizeEntries, renderEntriesTail]
  | (k, v) :: entries => by
    have h1 := size_le_render v
    have h2 := sizeEntries_le_tail entries
    simp only [sizeEntries, renderEntriesTail, List.length_cons, List.length_append]
    omega

end

/-- A rendered value starts with a character that closes no array. -/
theorem renderValue_head_ne (v : Value) :
    ∃ c t, renderValue v = c :: t ∧ c ≠ ']' := by
  cases v with
  | null => exact ⟨'n', ['u', 'l', 'l'], by simp [renderValue], by decide⟩
  | bool b =>
    cases b with
    | true => exact ⟨'t', ['r', 'u', 'e'], by simp [renderValue], by decide⟩
    | false => exact ⟨'f', ['a', 'l', 's', 'e'], by simp [renderValue], by decide⟩
  | str s =>
    exact ⟨'"', s.data.flatMap escapeChar ++ ['"'],
      by simp [renderValue, renderString], by decide⟩
  | arr items =>
    exact ⟨'[', renderItems items ++ [']'], by simp [renderValue], by decide⟩
  | obj entries =>
    exact ⟨'{', renderEntries entries ++ ['}'], by simp [renderValue], by decide⟩
  | num n =>
    by_cases hneg : n < 0
    · exact ⟨'-', natDigits n.natAbs, by simp [renderValue, renderInt, hneg],
        by decide⟩
    · obtain ⟨c, t, hnd, hc⟩ := natDigits_head n.natAbs
      exact ⟨c, t, by simp [renderValue, renderInt, hneg, hnd],
        (digit_ne hc).2.2.2.2.2.2.2.1⟩
mutual

/-- The codec round trip for one value: parsing its rendering recovers it
and leaves the remainder untouched, for any fuel at least its size and any
remainder that cannot extend a number. -/
theorem parse_render_value :
    ∀ (v : Value) (fuel : Nat) (rest : List Char),
      Value.size v ≤ fuel → numBoundary rest = true →
      parseValue fuel (renderValue v ++ rest) = some (v, rest)
  | v, 0, _, hs, _ => by
    exfalso; have := size_pos v; omega
  | .null, fuel + 1, rest, _, _ => by
    have harg : renderValue .null ++ rest = 'n' :: 'u' :: 'l' :: 'l' :: rest := by
      simp [renderValue]
    rw [harg]
    simp [parseValue]
  | .bool true, fuel + 1, rest, _, _ => by
    have harg : renderValue (.bool true) ++ rest
        = 't' :: 'r' :: 'u' :: 'e' :: rest := by
      simp [renderValue]
    rw [harg]
    simp [parseValue]
  | .bool false, fuel + 1, rest, _, _ => by
    have harg : renderValue (.bool false) ++ rest
        = 'f' :: 'a' :: 'l' :: 's' :: 'e' :: rest := by
      simp [renderValue]
    rw [harg]
    simp [parseValue]
  | .num n, fuel + 1, rest, _, hb => by
    have hint := parseIntChars_render n rest hb
    by_cases hneg : n < 0
    · have hform : renderInt n ++ rest = '-' :: (natDigits n.natAbs ++ rest) := by
        simp [renderInt, hneg]
      have harg : renderValue (.num n) ++ rest
          = '-' :: (natDigits n.natAbs ++ rest) := by
        simp [renderValue, renderInt, hneg]
      have hint' : parseIntChars ('-' :: (natDigits n.natAbs ++ rest))
          = some (n, rest) := by
        rw [← hform]; exact hint
      rw [harg]
      simp [parseValue, hint']
    · obtain ⟨c, t, hnd, hc⟩ := natDigits_head n.natAbs
      have hd := digit_ne hc
      have hform : renderInt n ++ rest = c :: (t ++ rest) := by
        simp [renderInt, hneg, hnd]
      have harg : renderValue (.num n) ++ rest = c :: (t ++ rest) := by
        simp [renderValue, renderInt, hneg, hnd]
      have hint' : parseIntChars (c :: (t ++ rest)) = some (n, rest) := by
        rw [← hform]; exact hint
      rw [harg]
      simp [parseValue, hint', hd.2.1, hd.2.2.1, hd.2.2.2.1, hd.2.2.2.2.1,
        hd.2.2.2.2.2.1, hd.2.2.2.2.2.2.1]
  | .str s, fuel + 1, rest, _, _ => by
    have harg : renderValue (.str s) ++ rest
        = '"' :: (s.data.flatMap escapeChar ++ ('"' :: rest)) := by
      simp [renderValue, renderString]
    rw [harg]
    simp [parseValue, parseStringBody_render s.data rest, stringMk_data]
  | .arr [], fuel + 1, rest, _, _ => by
    have harg : renderValue (.arr []) ++ rest = '[' :: ']' :: rest := by
      simp [renderValue, renderItems]
    rw [harg]
    simp [parseValue]
  | .arr (v :: items), fuel + 1, rest, hs, _ => by
    obtain ⟨c, t, hvh, hcne⟩ := renderValue_head_ne v
    have hfuel : sizeItems (v :: items) ≤ fuel := by
      simp only [Value.size] at hs; omega
    have harg : renderValue (.arr (v :: items)) ++ rest
        = '[' :: (c :: (t ++ (renderItemsTail items ++ ']' :: rest))) := by
      simp [renderValue, renderItems, hvh]
    have hback : c :: (t ++ (renderItemsTail items ++ ']' :: rest))
        = renderItems (v :: items) ++ ']' :: rest := by
      simp [renderItems, hvh]
    have hrec := parse_render_items v items fuel rest hfuel
    rw [harg]
    simp only [parseValue]
    simp [hcne, hback, hrec]
  | .obj [], fuel + 1, rest, _, _ => by
    have harg : renderValue (.obj []) ++ rest = '{' :: '}' :: rest := by
      simp [renderValue, renderEntries]
    rw [harg]
    simp [parseValue]
  | .obj ((k, v) :: entries), fuel + 1, rest, hs, _ => by
    have hfuel : sizeEntries ((k, v) :: entries) ≤ fuel := by
      simp only [Value.size] at hs; omega
    have harg : renderValue (.obj ((k, v) :: entries)) ++ rest
        = '{' :: ('"' :: (k.data.flatMap escapeChar
            ++ ('"' :: (':' :: (renderValue v
            ++ (renderEntriesTail entries ++ '}' :: rest)))))) := by
      simp [renderValue, renderEntries, renderString]
    have hrec := parse_render_entries k v entries fuel rest hfuel
    rw [harg]
    simp only [parseValue]
    simp [hrec]
termination_by _ fuel => fuel

/-- The codec round trip for a nonempty array body. -/
theorem parse_render_items :
    ∀ (v : Value) (items : List Value) (fuel : Nat) (rest : List Char),
      sizeItems (v :: items) ≤ fuel →
      parseArrayTail fuel (renderItems (v :: items) ++ ']' :: rest)
        = some (v :: items, rest)
  | v, _, 0, _, hs => by
    exfalso; have := size_pos v; simp only [sizeItems] at hs; omega
  | v, [], fuel + 1, rest, hs => by
    have hsv : Value.size v ≤ fuel := by
      simp only [sizeItems] at hs; omega
    have hv := parse_render_value v fuel (']' :: rest) hsv (by rfl)
    have harg : renderItems (v :: []) ++ ']' :: rest
        = renderValue v ++ ']' :: rest := by
      simp [renderItems, renderItemsTail]
    rw [harg]
    simp [parseArrayTail, hv]
  | v, w :: items, fuel + 1, rest, hs => by
    have hsv : Value.size v ≤ fuel := by
      have := size_pos w
      simp only [sizeItems] at hs; omega
    have hsw : sizeItems (w :: items) ≤ fuel := by
      have := size_pos v
      simp only [sizeItems] at hs ⊢; omega
    have hv := parse_render_value v fuel
      (',' :: (renderItems (w :: items) ++ ']' :: rest)) hsv (by rfl)
    have hrec := parse_render_items w items fuel rest hsw
    have harg : renderItems (v :: w :: items) ++ ']' :: rest
        = renderValue v ++ (',' :: (renderItems (w :: items) ++ ']' :: rest)) := by
      simp [renderItems, renderItemsTail]
    rw [harg]
    simp [parseArrayTail, hv, hrec]
termination_by _ _ fuel => fuel

/-- The codec round trip for a nonempty object body. -/
theorem parse_render_entries :
    ∀ (k : String) (v : Value) (entries : List (String × Value)) (fuel : Nat)
      (rest : List Char),
      sizeEntries ((k, v) :: entries) ≤ fuel →
      parseObjectTail fuel
        ('"' :: (k.data.flatMap escapeChar
          ++ ('"' :: (':' :: (renderValue v
          ++ (renderEntriesTail entries ++ '}' :: rest))))))
        = some ((k, v) :: entries, rest)
  | _, v, _, 0, _, hs => by
    exfalso; have := size_pos v; simp only [sizeEntries] at hs; omega
  | k, v, [], fuel + 1, rest, hs => by
    have hsv : Value.size v ≤ fuel := by
      simp only [sizeEntries] at hs; omega
    have hstr := parseStringBody_render k.data
      (':' :: (renderValue v ++ ('}' :: rest)))
    have hv := parse_render_value v fuel ('}' :: rest) hsv (by rfl)
    simp only [renderEntriesTail, List.nil_append]
    simp [parseObjectTail, hstr, hv, stringMk_data]
  | k, v, (k2, v2) :: entries, fuel + 1, rest, hs => by
    have hsv : Value.size v ≤ fuel := by
      have := size_pos v2
      simp only [sizeEntries] at hs; omega
    have hsw : sizeEntries ((k2, v2) :: entries) ≤ fuel := by
      have := size_pos v
      simp only [sizeEntries] at hs ⊢; omega
    have htail : renderEntriesTail ((k2, v2) :: entries) ++ '}' :: rest
        = ',' :: ('"' :: (k2.data.flatMap escapeChar
            ++ ('"' :: (':' :: (renderValue v2
            ++ (renderEntriesTail entries ++ '}' :: rest)))))) := by
      simp [renderEntriesTail, renderString]
    have hbd : numBoundary (renderEntriesTail ((k2, v2) :: entries)
        ++ '}' :: rest) = true := by
      rw [htail]; rfl
    have hv := parse_render_value v fuel
      (renderEntriesTail ((k2, v2) :: entries) ++ '}' :: rest) hsv hbd
    have hstr := parseStringBody_render k.data
      (':' :: (renderValue v
        ++ (renderEntriesTail ((k2, v2) :: entries) ++ '}' :: rest)))
    have hrec := parse_render_entries k2 v2 entries fuel rest hsw
    rw [htail] at hv hstr
    simp only [htail]
    simp [parseObjectTail, hstr, hv, hrec, stringMk_data]
termination_by _ _ _ fuel => fuel

end

/-- The document round trip: a rendered value parses back to itself. -/
theorem parseDocument_render (v : Value) :
    parseDocument (renderValue v) = some v := by
  have hfuel : Value.size v ≤ (renderValue v).length + 1 := by
    have := size_le_render v
    omega
  have h := parse_render_value v ((renderValue v).length + 1) [] hfuel rfl
  rw [List.append_nil] at h
  rw [parseDocument, h]

/-- Claim C8: every line emitted to the sink is the rendering of a JSON
object followed by exactly one newline, and parsing the line back succeeds
and yields that object — never an array or a scalar. -/
theorem c8_round_trip (now : String) (event : EventData)
    (current_span : Option SpanInfo) :
    on_event_sink_writes now event current_span
      = [renderValue (Value.obj (on_event_format now event current_span).record)
          ++ ['\n']]
    ∧ parseDocument
        (renderValue (Value.obj (on_event_format now event current_span).record))
      = some (Value.obj (on_event_format now event current_span).record) :=
  ⟨rfl, parseDocument_render (Value.obj (on_event_format now event current_span).record)⟩

end BunyanFormat
